import Mathlib

/-!
Shallow embedding of `scrape_threats.py` (CISA advisory scraper with tiered
summarization).  Python strings are modelled as `List Char`, BeautifulSoup
parse trees as a nested inductive of elements and text nodes, and the
abstractive summarization capability (Hugging Face pipeline) as an abstract
function returning `Except`, since the model itself is an external
collaborator.  All definitions are translated from the source file; the few
spots where external library behaviour (Python `str` methods, BeautifulSoup
traversal order) is embedded are noted in the doc comments.
-/

namespace ScrapeThreats

/-- Python strings, modelled as lists of characters. -/
abbrev Str := List Char

/-- Convenience conversion from Lean string literals to the `Str` model. -/
def str (s : String) : Str := s.data

/-- Python `str.strip()` / BeautifulSoup `strip=True` whitespace test. -/
def isWS (c : Char) : Bool := c.isWhitespace

/-- Python `s.strip()`: drop whitespace from both ends. -/
def pyStrip (s : Str) : Str :=
  ((s.dropWhile isWS).reverse.dropWhile isWS).reverse

/-- Substring test (Python `pat in s`): `pat` occurs contiguously in `s`. -/
def strContains (s pat : Str) : Bool :=
  match s with
  | [] => pat.isEmpty
  | c :: rest => pat.isPrefixOf (c :: rest) || strContains rest pat

/-- Case-insensitive containment: models `re.search(pat, s, re.IGNORECASE)`
for the patterns of the source, all of which are literal strings without
regex metacharacters. -/
def containsCI (pat s : Str) : Bool :=
  strContains (s.map Char.toLower) (pat.map Char.toLower)

/-- Python `" ".join(parts)`. -/
def joinWithSpace : List Str → Str
  | [] => []
  | [p] => p
  | p :: ps => p ++ ' ' :: joinWithSpace ps

/-- Python `s.rsplit(' ', 1)[0]`: everything before the last space, or the
whole string when it holds no space. -/
def rsplitSpace1 (s : Str) : Str :=
  match s.reverse.dropWhile (fun c => !(c == ' ')) with
  | [] => s
  | _ :: r => r.reverse

/-- A parsed HTML node as produced by BeautifulSoup: either a text node or an
element with a tag name, an optional `id` attribute, a `class` attribute
(list of class names) and children. -/
inductive HNode where
  | text (s : Str)
  | elem (tag : Str) (idAttr : Option Str) (classes : List Str) (children : List HNode)

mutual

/-- The strings of all text descendants of a node, in document order
(BeautifulSoup `Tag.strings`). -/
def rawStrings : HNode → List Str
  | .text s => [s]
  | .elem _ _ _ ch => rawStringsList ch

def rawStringsList : List HNode → List Str
  | [] => []
  | n :: ns => rawStrings n ++ rawStringsList ns

end

/-- BeautifulSoup `get_text(strip=True)`: each descendant string stripped,
whitespace-only strings skipped, remainder concatenated. -/
def getTextStrip (n : HNode) : Str :=
  (((rawStrings n).map pyStrip).filter (fun s => !s.isEmpty)).flatten


mutual

/-- BeautifulSoup `tag.find_all(pred)`: the matching strict descendants of a
node, in document order, each paired with its chain of ancestor elements
(nearest first).  `anc` is the ancestor chain of the node itself, so that
`element.parents` (which walks past the searched tag up to the document
root) is modelled faithfully. -/
def findAllFrom (p : HNode → Bool) (anc : List HNode) : HNode → List (HNode × List HNode)
  | .text _ => []
  | .elem t i c ch => findAllList p (HNode.elem t i c ch :: anc) ch

def findAllList (p : HNode → Bool) (anc : List HNode) : List HNode → List (HNode × List HNode)
  | [] => []
  | n :: ns =>
    (if p n then [(n, anc)] else []) ++ findAllFrom p anc n ++ findAllList p anc ns

end

mutual

/-- BeautifulSoup `soup.select_one(sel)`: the first node (the searched node
itself included) matching `p` in document order, paired with its ancestor
chain. -/
def selectFrom (p : HNode → Bool) (anc : List HNode) : HNode → Option (HNode × List HNode)
  | .text _ => none
  | .elem t i c ch =>
    if p (HNode.elem t i c ch) then some (HNode.elem t i c ch, anc)
    else selectList p (HNode.elem t i c ch :: anc) ch

def selectList (p : HNode → Bool) (anc : List HNode) : List HNode → Option (HNode × List HNode)
  | [] => none
  | n :: ns =>
    match selectFrom p anc n with
    | some r => some r
    | none => selectList p anc ns

end

/-- Whether a node is one of the elements removed at lines 134-135. -/
def isScriptOrStyle : HNode → Bool
  | .text _ => false
  | .elem t _ _ _ => t == str "script" || t == str "style"

mutual

/-- Lines 134-135: `for script_or_style in soup(['script', 'style']):
script_or_style.decompose()` — remove every script/style element from the
tree. -/
def removeSS : HNode → HNode
  | .text s => .text s
  | .elem t i c ch => .elem t i c (removeSSList ch)

def removeSSList : List HNode → List HNode
  | [] => []
  | n :: ns =>
    if isScriptOrStyle n then removeSSList ns
    else removeSS n :: removeSSList ns

end

/-- A simple compound CSS selector, as used in `content_selectors`
(lines 139-147): a tag name, required classes, and an optional required id. -/
structure Selector where
  tag : Str
  classes : List Str
  idAttr : Option Str

/-- Whether a node matches a simple compound CSS selector. -/
def matchesSel (s : Selector) : HNode → Bool
  | .text _ => false
  | .elem t i cls _ =>
    t == s.tag && s.classes.all (fun c => cls.contains c) &&
      (match s.idAttr with
       | none => true
       | some x => i == some x)

/-- Lines 139-147: the ranked list of candidate content containers, most
specific first. -/
def content_selectors : List Selector :=
  [⟨str "div", [str "l-page-section_content"], none⟩,
   ⟨str "div", [str "l-page-section", str "l-page-section--rich-text"], none⟩,
   ⟨str "div", [str "layout__region--content"], none⟩,
   ⟨str "div", [str "field--name-body"], none⟩,
   ⟨str "div", [str "node__content"], none⟩,
   ⟨str "article", [str "c-article__body"], none⟩,
   ⟨str "main", [], some (str "main")⟩]

/-- Lines 149-154: try each candidate selector in order with `select_one`,
keeping the first container found together with its ancestor chain and the
selector that matched. -/
def findContainer : List Selector → HNode → Option (HNode × List HNode × Selector)
  | [], _ => none
  | s :: rest, soup =>
    match selectFrom (matchesSel s) [] soup with
    | some (n, anc) => some (n, anc, s)
    | none => findContainer rest soup

/-- Line 161: the tags whose text is collected from the content container. -/
def textual_tags : List Str :=
  [str "p", str "h1", str "h2", str "h3", str "h4", str "h5", str "h6",
   str "li", str "strong", str "em"]

def isTextualElem : HNode → Bool
  | .text _ => false
  | .elem t _ _ _ => textual_tags.contains t

def isPTag : HNode → Bool
  | .text _ => false
  | .elem t _ _ _ => t == str "p"

/-- Line 169: the alternatives of the `irrelevant_parent_classes` regex. -/
def irrelevant_class_pats : List Str :=
  [str "c-site-footer", str "c-site-header", str "c-site-nav",
   str "view__filters", str "share-buttons", str "contact-info",
   str "related-links"]

/-- Line 173: `' '.join(parent.get('class', []))`. -/
def classStr : HNode → Str
  | .text _ => []
  | .elem _ _ cls _ => joinWithSpace cls

/-- Lines 166-176: walk the ancestor chain; the element is irrelevant when
any ancestor's class string matches the boilerplate-region regex. -/
def isIrrelevantParent (parents : List HNode) : Bool :=
  parents.any fun par =>
    irrelevant_class_pats.any fun pat => containsCI pat (classStr par)

/-- Lines 179-184: `boilerplate_text_patterns`. -/
def boilerplate_text_patterns : List Str :=
  [str "report a cyber issue", str "secure by design", str "secure our world",
   str "shields up", str "privacy policy", str "accessibility", str "sitemap",
   str "free cyber services", str "last updated", str "share this page",
   str "contact us", str "press release", str "disclaimer"]

def hasBoilerplateText (t : Str) : Bool :=
  boilerplate_text_patterns.any fun pat => containsCI pat t

/-- Lines 186-187: the keep condition
`not is_irrelevant_parent and text_content and not any(...)` for one element
paired with its ancestor chain. -/
def keepElement (ea : HNode × List HNode) : Bool :=
  !isIrrelevantParent ea.2 && !(getTextStrip ea.1).isEmpty &&
    !hasBoilerplateText (getTextStrip ea.1)

/-- Lines 161-189: iterate the textual descendants of the content container,
append each kept element's stripped text followed by a space, and strip the
accumulated blob at the end. -/
def extractFullArticleText (content_container : HNode) (parents0 : List HNode) : Str :=
  pyStrip ((findAllFrom isTextualElem parents0 content_container).foldl
    (fun acc ea =>
      if keepElement ea then acc ++ getTextStrip ea.1 ++ [' '] else acc)
    [])

/-- Line 192: `min_summary_input_length = 100`. -/
def min_summary_input_length : Nat := 100

/-- Lines 199-212 (first fallback block, triggered by short input): the
paragraph-accumulation loop, given the stripped texts of the `<p>` elements
in order and the running `char_count`.  Whole paragraphs are appended while
`char_count + len < 500`; the first paragraph that does not fit is truncated
at `max_chars - char_count` characters, cut back to the last space, given an
ellipsis, and ends the loop; empty paragraph texts are skipped. -/
def extractiveLoopA : List Str → Nat → List Str
  | [], _ => []
  | p :: ps, char_count =>
    if p = [] then extractiveLoopA ps char_count
    else if char_count + p.length < 500 then p :: extractiveLoopA ps (char_count + p.length)
    else if 500 - char_count > 0 then [rsplitSpace1 (p.take (500 - char_count)) ++ str "..."]
    else []

/-- Lines 235-244 (second fallback block, triggered by a summarizer
exception): a verbatim duplicate of the loop of lines 202-211. -/
def extractiveLoopB : List Str → Nat → List Str
  | [], _ => []
  | p :: ps, char_count =>
    if p = [] then extractiveLoopB ps char_count
    else if char_count + p.length < 500 then p :: extractiveLoopB ps (char_count + p.length)
    else if 500 - char_count > 0 then [rsplitSpace1 (p.take (500 - char_count)) ++ str "..."]
    else []

/-- Lines 253-262 (third fallback block, triggered by an uninitialized
pipeline): a verbatim duplicate of the loop of lines 202-211. -/
def extractiveLoopC : List Str → Nat → List Str
  | [], _ => []
  | p :: ps, char_count =>
    if p = [] then extractiveLoopC ps char_count
    else if char_count + p.length < 500 then p :: extractiveLoopC ps (char_count + p.length)
    else if 500 - char_count > 0 then [rsplitSpace1 (p.take (500 - char_count)) ++ str "..."]
    else []

/-- Lines 196-212: extractive fallback for the short-input trigger —
`find_all('p')` on the fallback content source, run the loop, then
`" ".join(summary_parts)` or the sentinel. -/
def fallbackBlockA (fallback_content_source : HNode) : Str :=
  let summary_parts := extractiveLoopA
    ((findAllFrom isPTag [] fallback_content_source).map fun pa => getTextStrip pa.1) 0
  if summary_parts = [] then str "No summary available (extractive fallback)."
  else joinWithSpace summary_parts

/-- Lines 229-245: extractive fallback for the summarizer-exception trigger. -/
def fallbackBlockB (fallback_content_source : HNode) : Str :=
  let summary_parts := extractiveLoopB
    ((findAllFrom isPTag [] fallback_content_source).map fun pa => getTextStrip pa.1) 0
  if summary_parts = [] then str "No summary available (extractive fallback)."
  else joinWithSpace summary_parts

/-- Lines 246-263: extractive fallback for the uninitialized-pipeline
trigger. -/
def fallbackBlockC (fallback_content_source : HNode) : Str :=
  let summary_parts := extractiveLoopC
    ((findAllFrom isPTag [] fallback_content_source).map fun pa => getTextStrip pa.1) 0
  if summary_parts = [] then str "No summary available (extractive fallback)."
  else joinWithSpace summary_parts

/-- The abstractive summarization capability (Hugging Face pipeline call of
lines 220-225), an external collaborator: given the text and the
`max_length`/`min_length` bounds it either returns a summary or raises. -/
abbrev Summarizer := Str → Nat → Nat → Except Str Str

/-- Lines 10-16: the global one-time initialization with its `try/except`:
on success the pipeline handle is kept, on any failure `summarizer_pipeline`
is set to `None` and the run continues. -/
def initSummarizerPipeline (tryInit : Except Str Summarizer) : Option Summarizer :=
  match tryInit with
  | .ok p => some p
  | .error _ => none

/-- Which tier produced a summary (the spec's `SummaryResult.method` tag,
recording the branch of `get_article_summary` that returned). -/
inductive Method where
  | abstractive
  | extractive
deriving DecidableEq

/-- The spec's `SummaryResult`: the summary text and the tier that made it. -/
structure SummaryResult where
  text : Str
  method : Method
deriving DecidableEq

/-- Lines 149-157, as used by `get_article_summary`: the content container
found on the script/style-stripped page, with ancestors and the matching
selector. -/
def containerOf (soup : HNode) : Option (HNode × List HNode × Selector) :=
  findContainer content_selectors (removeSS soup)

/-- Lines 156-189: `full_article_text` — the filtered text blob of the
matched container, or the empty string when no candidate matched. -/
def extractedTextOf (soup : HNode) : Str :=
  match containerOf soup with
  | some (c, anc, _) => extractFullArticleText c anc
  | none => []

/-- Lines 197/230/248: `fallback_content_source = content_container if
content_container else soup` (the soup after script/style removal). -/
def fallbackSourceOf (soup : HNode) : HNode :=
  match containerOf soup with
  | some (c, _, _) => c
  | none => removeSS soup

/-- Lines 117-263: `get_article_summary`, given the parsed article page (the
fetch of lines 127-129 is an external collaborator, so the page is taken
directly) and the global `summarizer_pipeline`.  Returns the summary text
tagged with the producing tier, paired with the number of invocations of the
abstractive capability made during the call. -/
def get_article_summary (summarizer_pipeline : Option Summarizer) (soup : HNode) :
    SummaryResult × Nat :=
  if extractedTextOf soup = [] ∨ (extractedTextOf soup).length < min_summary_input_length then
    (⟨fallbackBlockA (fallbackSourceOf soup), Method.extractive⟩, 0)
  else
    match summarizer_pipeline with
    | some f =>
      match f (extractedTextOf soup) 150 30 with
      | .ok generated_summary => (⟨generated_summary, Method.abstractive⟩, 1)
      | .error _ => (⟨fallbackBlockB (fallbackSourceOf soup), Method.extractive⟩, 1)
    | none => (⟨fallbackBlockC (fallbackSourceOf soup), Method.extractive⟩, 0)

/-- A calendar date, as produced by Python's `datetime.date()`. -/
structure DateD where
  year : Int
  month : Nat
  day : Nat
deriving DecidableEq

/-- Lines 66-67: the title/link pair of a teaser item — the `<a href=...>`
inside the `<h3 class="c-teaser__title">`, when both exist.  `href` is the
raw attribute, `title` its `get_text(strip=True)`. -/
structure TeaserLink where
  href : Str
  title : Str

/-- Lines 80-81: the `<time>` tag inside `<div class="c-teaser__date">`,
when both exist: its optional `datetime` attribute and its stripped text. -/
structure TimeTag where
  datetimeAttr : Option Str
  text : Str

/-- One `<article class="c-teaser">` listing item, reduced to the two pieces
the source reads from it. -/
structure TeaserItem where
  linkTag : Option TeaserLink
  timeTag : Option TimeTag

/-- The output records of `extract_articles_by_date` (lines 108-111). -/
structure ArticleRef where
  title : Str
  url : Str
deriving DecidableEq

/-- Lines 74-75: CISA URLs might be relative; absolutize unless the href
starts with `http`.  `urljoin` (Python `requests.compat.urljoin`) is an
external collaborator passed as a parameter. -/
def resolveUrl (urljoin : Str → Str → Str) (main_url href : Str) : Str :=
  if (str "http").isPrefixOf href then href else urljoin main_url href

/-- Lines 64-115: the per-item loop of `extract_articles_by_date`, given the
already-located `<article class="c-teaser">` items.  The two date decoders
are external stdlib calls passed as parameters: `parseIsoDate` models
`datetime.fromisoformat(s.replace('Z', '+00:00')).date()` and
`parseTextDate` models `datetime.strptime(s, "%b %d, %Y").date()`, each
returning `none` where Python raises `ValueError`.  An item with no
title/link is skipped; a present but empty `datetime` attribute is falsy in
Python, so the text fallback is used; a failed ISO parse also falls back to
the text parse; items whose date cannot be parsed at all, or that carry no
`<time>` tag, are skipped. -/
def extract_articles_by_date (parseIsoDate parseTextDate : Str → Option DateD)
    (urljoin : Str → Str → Str) (main_url : Str)
    (advisory_items : List TeaserItem) (target_date : DateD) : List ArticleRef :=
  match advisory_items with
  | [] => []
  | item :: rest =>
    let tail := extract_articles_by_date parseIsoDate parseTextDate urljoin main_url
      rest target_date
    match item.linkTag with
    | none => tail
    | some link =>
      let article_url := resolveUrl urljoin main_url link.href
      match item.timeTag with
      | none => tail
      | some t =>
        let published? : Option DateD :=
          match t.datetimeAttr with
          | some iso =>
            if iso = [] then parseTextDate t.text
            else
              match parseIsoDate iso with
              | some d => some d
              | none => parseTextDate t.text
          | none => parseTextDate t.text
        match published? with
        | none => tail
        | some published_date =>
          if published_date = target_date then ⟨link.title, article_url⟩ :: tail
          else tail

/-- The publication date of a listing item as the spec describes it: parsed
preferentially from the ISO-8601 `datetime` attribute, falling back to the
short human-readable text. -/
def parsedPublicationDate (parseIsoDate parseTextDate : Str → Option DateD)
    (t : TimeTag) : Option DateD :=
  match t.datetimeAttr with
  | some iso => (parseIsoDate iso).orElse fun _ => parseTextDate t.text
  | none => parseTextDate t.text

/-- The spec-side per-item contract (section 4.1): an item is included iff
it has a title/link and a parsable publication date equal to the target
date; its URL is resolved against the listing page's base URL. -/
def specItemRef (parseIsoDate parseTextDate : Str → Option DateD)
    (urljoin : Str → Str → Str) (main_url : Str) (target_date : DateD)
    (item : TeaserItem) : Option ArticleRef :=
  match item.linkTag, item.timeTag with
  | some link, some t =>
    match parsedPublicationDate parseIsoDate parseTextDate t with
    | some d =>
      if d = target_date then some ⟨link.title, resolveUrl urljoin main_url link.href⟩
      else none
    | none => none
  | _, _ => none

/-! Concrete pages used to witness the theorems below.  The BeautifulSoup
object itself is modelled as a `[document]` element that matches no content
selector, as in the library. -/

/-- The tag of the synthetic document root node. -/
def docTag : Str := str "[document]"

/-- A parsed page with no content at all. -/
def pageEmpty : HNode := .elem docTag none [] []

/-- A page whose matched container holds a single long paragraph of prose
that passes both boilerplate filters. -/
def pageProse : HNode :=
  .elem docTag none []
    [.elem (str "div") none [str "l-page-section_content"]
      [.elem (str "p") none []
        [.text (str "Threat actors exploited several vulnerabilities in widely deployed network appliances during this campaign, and the advisory describes mitigations and detection opportunities for defenders.")]]]

/-- A page whose matched container holds only a boilerplate paragraph: the
primary extraction drops it, the fallback keeps it. -/
def pageBoiler : HNode :=
  .elem docTag none []
    [.elem (str "div") none [str "l-page-section_content"]
      [.elem (str "p") none []
        [.text (str "Privacy Policy | Accessibility | Sitemap")]]]

/-- A page on which no content-candidate selector matches, but whose body
paragraph would survive the boilerplate filters. -/
def pageNoMatch : HNode :=
  .elem docTag none []
    [.elem (str "p") none []
      [.text (str "A fresh advisory describes exploitation of a new vulnerability affecting several products.")]]

/-- A paragraph sitting inside a boilerplate-classed container: dropped by
the structural filter, yet its text leaks into the blob through `leakLi`. -/
def leakP : HNode := .elem (str "p") none [] [.text (str "Share on social media")]

/-- A footer-classed wrapper between `leakLi` and `leakP`. -/
def leakFooter : HNode := .elem (str "div") none [str "c-site-footer"] [leakP]

/-- A kept `li` whose `get_text(strip=True)` subsumes every descendant,
including the dropped `leakP`: its own ancestor chain never sees the footer
class below it. -/
def leakLi : HNode := .elem (str "li") none [] [.text (str "Intro"), leakFooter]

/-- A matched content region holding `li > div.c-site-footer > p`. -/
def containerLeak : HNode :=
  .elem (str "div") none [str "l-page-section_content"] [leakLi]

/-- The content region of `pageTwoMatches` (matches the third candidate). -/
def divRegion : HNode :=
  .elem (str "div") none [str "layout__region--content"]
    [.elem (str "p") none [] [.text (str "Body text.")]]

/-- A page matching both a specific candidate (`div.layout__region--content`)
and the generic last-resort candidate (`main#main`). -/
def pageTwoMatches : HNode :=
  .elem docTag none [] [divRegion, .elem (str "main") (some (str "main")) [] []]
/-- Concrete dates and toy external date decoders for the C7 witness. -/
def dJun10 : DateD := ⟨2025, 6, 10⟩

def dJun9 : DateD := ⟨2025, 6, 9⟩

def toyIso (s : Str) : Option DateD :=
  if s = str "2025-06-10T12:00:00Z" then some dJun10
  else if s = str "2025-06-09T12:00:00Z" then some dJun9
  else none

def toyText (s : Str) : Option DateD :=
  if s = str "Jun 10, 2025" then some dJun10 else none

def toyJoin (base rel : Str) : Str := base ++ rel

/-- A toy listing: one ISO-dated match, one item with no link, one
text-dated match, one item dated the day before, one item with no date. -/
def toyItems : List TeaserItem :=
  [⟨some ⟨str "/adv-a", str "Advisory A"⟩,
    some ⟨some (str "2025-06-10T12:00:00Z"), str "Jun 10, 2025"⟩⟩,
   ⟨none, some ⟨some (str "2025-06-10T12:00:00Z"), str "Jun 10, 2025"⟩⟩,
   ⟨some ⟨str "https://example.org/b", str "Advisory B"⟩,
    some ⟨none, str "Jun 10, 2025"⟩⟩,
   ⟨some ⟨str "/adv-c", str "Advisory C"⟩,
    some ⟨some (str "2025-06-09T12:00:00Z"), str "Jun 9, 2025"⟩⟩,
   ⟨some ⟨str "/adv-d", str "Advisory D"⟩, none⟩]
/-- Total character count of a list of paragraph texts (the quantity the
source tracks in `char_count`, without the joining spaces). -/
def sumLen (l : List Str) : Nat := (l.map List.length).sum

/-- Two paragraphs totalling 1099 characters: one of 499 `a`s (appended
whole) and one space-free paragraph of 600 `b`s (truncated). -/
def c3paras : List Str := [List.replicate 499 'a', List.replicate 600 'b']
/-- A string with no leading and no trailing whitespace (as `get_text` with
`strip=True` produces). -/
def NoEdge (s : Str) : Prop :=
  (∀ c, s.head? = some c → isWS c = false) ∧
  (∀ c, s.getLast? = some c → isWS c = false)
/-- The trailing-space concatenation built by the loop of lines 186-188:
each kept text followed by one space. -/
def concatTrail : List Str → Str
  | [] => []
  | t :: ts => t ++ ' ' :: concatTrail ts

/-! ## Claim theorems -/

/-- C1: for every fetched article page, if the cleaned extracted text is
empty or shorter than 100 characters, `get_article_summary` never invokes
the abstractive summarization capability (invocation count 0) and returns
the result of the extractive fallback instead, tagged `method=extractive`. -/
theorem short_input_skips_abstractive (sp : Option Summarizer) (soup : HNode)
    (h : extractedTextOf soup = [] ∨
      (extractedTextOf soup).length < min_summary_input_length) :
    get_article_summary sp soup =
      (⟨fallbackBlockA (fallbackSourceOf soup), Method.extractive⟩, 0) := by
  unfold get_article_summary
  rw [if_pos h]

/-- Witness for C1 at a concrete page with empty extracted text and a live
abstractive stub. -/
theorem short_input_skips_abstractive_witness :
    (extractedTextOf pageEmpty = [] ∨
      (extractedTextOf pageEmpty).length < min_summary_input_length) ∧
    get_article_summary (some fun t _ _ => Except.ok t) pageEmpty =
      (⟨fallbackBlockA (fallbackSourceOf pageEmpty), Method.extractive⟩, 0) :=
  ⟨Or.inl (by decide), short_input_skips_abstractive _ pageEmpty (Or.inl (by decide))⟩

theorem loopA_eq_loopB (ps : List Str) (cc : Nat) :
    extractiveLoopA ps cc = extractiveLoopB ps cc := by
  induction ps generalizing cc with
  | nil => rfl
  | cons p ps ih =>
    simp only [extractiveLoopA, extractiveLoopB]
    split_ifs <;> simp [ih]

theorem loopB_eq_loopC (ps : List Str) (cc : Nat) :
    extractiveLoopB ps cc = extractiveLoopC ps cc := by
  induction ps generalizing cc with
  | nil => rfl
  | cons p ps ih =>
    simp only [extractiveLoopB, extractiveLoopC]
    split_ifs <;> simp [ih]

/-- C8: the three inline extractive-fallback blocks compute the same
function — given the same content source, all three produce the identical
summary string. -/
theorem fallback_blocks_agree (src : HNode) :
    fallbackBlockA src = fallbackBlockB src ∧ fallbackBlockB src = fallbackBlockC src := by
  unfold fallbackBlockA fallbackBlockB fallbackBlockC
  rw [loopA_eq_loopB, loopB_eq_loopC]
  exact ⟨rfl, rfl⟩

set_option maxRecDepth 4000 in
/-- C10: the extractive fallback builds its summary from the raw `<p>` texts
of the fallback content source, applying neither the structural-ancestor
filter nor the lexical boilerplate filter; concretely, on `pageBoiler` the
lexical filter drops the only paragraph (so the primary blob is empty), yet
the fallback summary is exactly that dropped boilerplate text. -/
theorem fallback_bypasses_boilerplate_filters :
    hasBoilerplateText (str "Privacy Policy | Accessibility | Sitemap") = true ∧
    extractedTextOf pageBoiler = [] ∧
    get_article_summary none pageBoiler =
      (⟨str "Privacy Policy | Accessibility | Sitemap", Method.extractive⟩, 0) := by
  refine ⟨by decide, by decide, by decide⟩

set_option maxRecDepth 4000 in
/-- C4 counterexample: on `pageNoMatch` no content-candidate selector
matches, and extraction then produces the empty blob — not the
boilerplate-filtered text of the whole page, which is nonempty here. -/
theorem degraded_mode_counterexample :
    containerOf pageNoMatch = none ∧
    extractedTextOf pageNoMatch = [] ∧
    extractFullArticleText (removeSS pageNoMatch) [] ≠ [] := by
  refine ⟨by rfl, by decide, by decide⟩

theorem loopA_mem_ne_nil (ps : List Str) (cc : Nat) (x : Str)
    (hx : x ∈ extractiveLoopA ps cc) : x ≠ [] := by
  induction ps generalizing cc with
  | nil => simp [extractiveLoopA] at hx
  | cons p rest ih =>
    rw [extractiveLoopA] at hx
    split_ifs at hx with h1 h2 h3
    · exact ih _ hx
    · rcases List.mem_cons.1 hx with h | h
      · subst h; exact h1
      · exact ih _ h
    · rcases List.mem_singleton.1 hx with h
      subst h
      intro hcontra
      exact absurd (List.append_eq_nil.1 hcontra).2 (by simp [str])
    · simp at hx

theorem joinWithSpace_ne_nil (l : List Str) (h1 : l ≠ [])
    (h2 : ∀ x ∈ l, x ≠ []) : joinWithSpace l ≠ [] := by
  match l with
  | [p] => exact h2 p (by simp)
  | p :: q :: ps =>
    show p ++ ' ' :: joinWithSpace (q :: ps) ≠ []
    simp

theorem blockA_ne_nil (src : HNode) : fallbackBlockA src ≠ [] := by
  rw [fallbackBlockA]
  split_ifs with h
  · simp [str]
  · exact joinWithSpace_ne_nil _ h (fun x hx => loopA_mem_ne_nil _ _ x hx)

/-- C4 (amended): for every parsed page on which no content-region candidate
selector matches, the extracted text blob is empty (the whole-page
boilerplate-filtered text is not computed), and `get_article_summary` still
returns a nonempty result — the extractive fallback applied to the whole
page's `<p>` elements without boilerplate filtering — rather than failing. -/
theorem degraded_mode_amended (sp : Option Summarizer) (soup : HNode)
    (h : containerOf soup = none) :
    extractedTextOf soup = [] ∧
    get_article_summary sp soup =
      (⟨fallbackBlockA (removeSS soup), Method.extractive⟩, 0) ∧
    fallbackBlockA (removeSS soup) ≠ [] := by
  have htext : extractedTextOf soup = [] := by
    rw [extractedTextOf, h]
  have hsrc : fallbackSourceOf soup = removeSS soup := by
    rw [fallbackSourceOf, h]
  refine ⟨htext, ?_, blockA_ne_nil _⟩
  unfold get_article_summary
  rw [if_pos (Or.inl htext), hsrc]

/-- Witness for C4 (amended) at `pageNoMatch`. -/
theorem degraded_mode_amended_witness :
    containerOf pageNoMatch = none ∧
    (extractedTextOf pageNoMatch = [] ∧
     get_article_summary none pageNoMatch =
       (⟨fallbackBlockA (removeSS pageNoMatch), Method.extractive⟩, 0) ∧
     fallbackBlockA (removeSS pageNoMatch) ≠ []) :=
  ⟨rfl, degraded_mode_amended none pageNoMatch rfl⟩

/-- C2: for every extracted text of at least 100 characters and every
behaviour of the abstractive capability, if the abstractive call raises,
`get_article_summary` catches the exception and returns the extractive
fallback summary (tagged `method=extractive`) instead of propagating it; the
abstractive tier is attempted exactly once (count 1), never re-attempted. -/
theorem summarizer_failure_falls_back (f : Summarizer) (soup : HNode) (e : Str)
    (hlen : min_summary_input_length ≤ (extractedTextOf soup).length)
    (herr : f (extractedTextOf soup) 150 30 = Except.error e) :
    get_article_summary (some f) soup =
      (⟨fallbackBlockB (fallbackSourceOf soup), Method.extractive⟩, 1) := by
  have hne : extractedTextOf soup ≠ [] :=
    List.ne_nil_of_length_pos (lt_of_lt_of_le (by norm_num [min_summary_input_length]) hlen)
  unfold get_article_summary
  rw [if_neg (by push_neg; exact ⟨hne, hlen⟩)]
  simp only [herr]

set_option maxRecDepth 4000 in
/-- Witness for C2: a page with a long enough prose container and an
abstractive stub that always raises. -/
theorem summarizer_failure_falls_back_witness :
    min_summary_input_length ≤ (extractedTextOf pageProse).length ∧
    get_article_summary (some fun _ _ _ => Except.error (str "CUDA out of memory")) pageProse =
      (⟨fallbackBlockB (fallbackSourceOf pageProse), Method.extractive⟩, 1) :=
  ⟨by decide, summarizer_failure_falls_back _ pageProse (str "CUDA out of memory")
    (by decide) rfl⟩

/-- C9: if the one-time initialization of the abstractive capability fails,
`summarizer_pipeline` is `None` (the process does not fail at startup), and
then every article's summary is produced by the extractive method, with the
abstractive capability never invoked. -/
theorem init_failure_pure_extractive (e : Str) (soup : HNode) :
    initSummarizerPipeline (Except.error e) = none ∧
    (get_article_summary (initSummarizerPipeline (Except.error e)) soup).1.method =
      Method.extractive ∧
    (get_article_summary (initSummarizerPipeline (Except.error e)) soup).2 = 0 := by
  refine ⟨rfl, ?_⟩
  show (get_article_summary none soup).1.method = _ ∧ (get_article_summary none soup).2 = 0
  unfold get_article_summary
  split
  · exact ⟨rfl, rfl⟩
  · exact ⟨rfl, rfl⟩

mutual

theorem selectFrom_sound : ∀ (p : HNode → Bool) (anc : List HNode) (n m : HNode)
    (a : List HNode), selectFrom p anc n = some (m, a) → p m = true
  | p, anc, .text s, m, a, h => by simp [selectFrom] at h
  | p, anc, .elem t i c ch, m, a, h => by
    rw [selectFrom] at h
    split at h
    · rename_i hp
      obtain ⟨rfl, rfl⟩ : HNode.elem t i c ch = m ∧ anc = a := by
        constructor <;> injection h with h2 <;> cases h2 <;> rfl
      exact hp
    · exact selectList_sound p (HNode.elem t i c ch :: anc) ch m a h

theorem selectList_sound : ∀ (p : HNode → Bool) (anc : List HNode)
    (ns : List HNode) (m : HNode) (a : List HNode),
    selectList p anc ns = some (m, a) → p m = true
  | p, anc, [], m, a, h => by simp [selectList] at h
  | p, anc, n :: ns, m, a, h => by
    rw [selectList] at h
    split at h
    · rename_i r heq
      cases h
      exact selectFrom_sound p anc n m a heq
    · exact selectList_sound p anc ns m a h

end

/-- C6: when `findContainer` selects a content region, the region matches
the selector recorded with it, and that selector is the earliest one in the
ranked candidate list for which `select_one` finds anything — every
earlier candidate has no structural match on the page, so when several
candidates match, the most specific (earliest) one wins. -/
theorem selector_precedence (sels : List Selector) (soup n : HNode)
    (anc : List HNode) (s : Selector)
    (h : findContainer sels soup = some (n, anc, s)) :
    matchesSel s n = true ∧
    ∃ pre post, sels = pre ++ s :: post ∧
      ∀ s2 ∈ pre, selectFrom (matchesSel s2) [] soup = none := by
  induction sels with
  | nil => simp [findContainer] at h
  | cons s0 rest ih =>
    rw [findContainer] at h
    cases hsel : selectFrom (matchesSel s0) [] soup with
    | some r =>
      obtain ⟨n0, anc0⟩ := r
      rw [hsel] at h
      simp only [Option.some.injEq, Prod.mk.injEq] at h
      obtain ⟨rfl, rfl, rfl⟩ := h
      exact ⟨selectFrom_sound _ [] soup _ _ hsel, [], rest, rfl, by simp⟩
    | none =>
      rw [hsel] at h
      simp only at h
      obtain ⟨hm, pre, post, hsels, hpre⟩ := ih h
      refine ⟨hm, s0 :: pre, post, by rw [List.cons_append, hsels], ?_⟩
      intro s2 hs2
      rcases List.mem_cons.1 hs2 with rfl | hs2
      · exact hsel
      · exact hpre s2 hs2


/-- Witness for C6: on `pageTwoMatches` the specific candidate (rank 3) is
selected even though `main#main` (rank 7) also matches. -/
theorem selector_precedence_witness :
    findContainer content_selectors pageTwoMatches =
      some (divRegion, [pageTwoMatches],
        ⟨str "div", [str "layout__region--content"], none⟩) ∧
    (matchesSel ⟨str "div", [str "layout__region--content"], none⟩ divRegion = true ∧
     ∃ pre post, content_selectors =
        pre ++ ⟨str "div", [str "layout__region--content"], none⟩ :: post ∧
      ∀ s2 ∈ pre, selectFrom (matchesSel s2) [] pageTwoMatches = none) :=
  ⟨rfl, selector_precedence content_selectors pageTwoMatches divRegion
    [pageTwoMatches] ⟨str "div", [str "layout__region--content"], none⟩ rfl⟩

/-- C7: `extract_articles_by_date` returns exactly the listing items whose
parsed publication date (preferring the ISO `datetime` attribute, falling
back to the human-readable text) equals the target date, in the page's
original order (a `filterMap` of the item list, hence no re-sorting); items
lacking a title/link or an unparsable date are skipped.  The hypothesis
records that the external ISO parser rejects the empty string (Python's
`fromisoformat('')` raises), which makes the code's falsy-attribute check
agree with the spec's preference order. -/
theorem date_filter_exact (parseIsoDate parseTextDate : Str → Option DateD)
    (urljoin : Str → Str → Str) (main_url : Str) (items : List TeaserItem)
    (target_date : DateD) (hiso : parseIsoDate [] = none) :
    extract_articles_by_date parseIsoDate parseTextDate urljoin main_url items
        target_date =
      items.filterMap
        (specItemRef parseIsoDate parseTextDate urljoin main_url target_date) := by
  induction items with
  | nil => rfl
  | cons item rest ih =>
    rw [extract_articles_by_date, List.filterMap_cons]
    cases hlink : item.linkTag with
    | none => simp only [hlink, specItemRef, ih]
    | some link =>
      cases htime : item.timeTag with
      | none => simp only [hlink, htime, specItemRef, ih]
      | some t =>
        cases hdt : t.datetimeAttr with
        | none =>
          cases hp : parseTextDate t.text with
          | none => simp [hlink, htime, hdt, hp, specItemRef, parsedPublicationDate, ih]
          | some d =>
            by_cases hd : d = target_date <;>
              simp [hlink, htime, hdt, hp, hd, specItemRef, parsedPublicationDate, ih]
        | some iso =>
          by_cases hnil : iso = []
          · subst hnil
            cases hp : parseTextDate t.text with
            | none =>
              simp [hlink, htime, hdt, hp, hiso, specItemRef, parsedPublicationDate,
                Option.orElse, ih]
            | some d =>
              by_cases hd : d = target_date <;>
                simp [hlink, htime, hdt, hp, hiso, hd, specItemRef, parsedPublicationDate,
                  Option.orElse, ih]
          · cases hpi : parseIsoDate iso with
            | some d =>
              by_cases hd : d = target_date <;>
                simp [hlink, htime, hdt, hpi, hnil, hd, specItemRef, parsedPublicationDate,
                  Option.orElse, ih]
            | none =>
              cases hp : parseTextDate t.text with
              | none =>
                simp [hlink, htime, hdt, hpi, hp, hnil, specItemRef, parsedPublicationDate,
                  Option.orElse, ih]
              | some d =>
                by_cases hd : d = target_date <;>
                  simp [hlink, htime, hdt, hpi, hp, hnil, hd, specItemRef,
                    parsedPublicationDate, Option.orElse, ih]


/-- Witness for C7 on the toy listing and decoders. -/
theorem date_filter_exact_witness :
    toyIso [] = none ∧
    extract_articles_by_date toyIso toyText toyJoin (str "https://www.cisa.gov/x")
        toyItems dJun10 =
      toyItems.filterMap
        (specItemRef toyIso toyText toyJoin (str "https://www.cisa.gov/x") dJun10) :=
  ⟨by decide, date_filter_exact toyIso toyText toyJoin (str "https://www.cisa.gov/x")
    toyItems dJun10 (by decide)⟩


set_option maxRecDepth 10000 in
/-- C3 counterexample: on `c3paras` the concatenated paragraph length 1099
exceeds the 500-character budget, yet the produced summary has length 504,
exceeding the claimed bound budget + ellipsis = 503 (the space inserted by
`" ".join` is not counted in `char_count`); the final fragment is also the
mid-word cut `b...` of a space-free paragraph. -/
theorem extractive_budget_counterexample :
    500 < sumLen c3paras ∧
    extractiveLoopA c3paras 0 =
      [List.replicate 499 'a', 'b' :: str "..."] ∧
    (joinWithSpace (extractiveLoopA c3paras 0)).length = 504 := by
  refine ⟨by decide, by decide, by decide⟩

theorem length_rsplitSpace1_le (s : Str) : (rsplitSpace1 s).length ≤ s.length := by
  rw [rsplitSpace1]
  split
  · exact le_refl _
  · rename_i c r heq
    have h1 : (s.reverse.dropWhile (fun c => !(c == ' '))).length ≤ s.reverse.length :=
      (List.dropWhile_sublist _).length_le
    rw [heq] at h1
    simp at h1 ⊢
    omega

theorem extractiveLoopA_budget (paras : List Str) (cc : Nat) (h1 : cc < 500)
    (h2 : 500 < cc + sumLen paras) :
    ∃ front last, extractiveLoopA paras cc = front ++ [last] ∧
      str "..." <:+ last ∧ sumLen (front ++ [last]) ≤ (500 - cc) + 3 := by
  induction paras generalizing cc with
  | nil =>
    exfalso
    simp [sumLen] at h2
    omega
  | cons p ps ih =>
    rw [extractiveLoopA]
    by_cases hp : p = []
    · rw [if_pos hp]
      refine ih cc h1 ?_
      simp [sumLen, hp] at h2 ⊢
      omega
    · rw [if_neg hp]
      by_cases hfit : cc + p.length < 500
      · rw [if_pos hfit]
        obtain ⟨front, last, heq, hsuf, hb⟩ := ih (cc + p.length) hfit
          (by simp [sumLen] at h2 ⊢; omega)
        refine ⟨p :: front, last, by simp [heq], hsuf, ?_⟩
        simp [sumLen] at hb ⊢
        omega
      · rw [if_neg hfit, if_pos (by omega)]
        refine ⟨[], rsplitSpace1 (p.take (500 - cc)) ++ str "...", rfl,
          List.suffix_append _ _, ?_⟩
        have hr := length_rsplitSpace1_le (p.take (500 - cc))
        have ht : (p.take (500 - cc)).length ≤ 500 - cc := by simp
        have he : (str "...").length = 3 := rfl
        simp [sumLen]
        omega

theorem join_last_suffix (front : List Str) (last : Str) :
    last <:+ joinWithSpace (front ++ [last]) := by
  induction front with
  | nil => simp [joinWithSpace]
  | cons f fs ih =>
    have hstep : joinWithSpace ((f :: fs) ++ [last]) =
        f ++ ' ' :: joinWithSpace (fs ++ [last]) := by
      cases fs <;> rfl
    have h2 : joinWithSpace (fs ++ [last]) <:+
        f ++ ' ' :: joinWithSpace (fs ++ [last]) := by
      have h3 := List.suffix_append (f ++ [' ']) (joinWithSpace (fs ++ [last]))
      simpa [List.append_assoc] using h3
    rw [hstep]
    exact ih.trans h2

theorem joinWithSpace_length (l : List Str) (h : l ≠ []) :
    (joinWithSpace l).length + 1 = sumLen l + l.length := by
  match l with
  | [p] => simp [joinWithSpace, sumLen]
  | p :: q :: ps =>
    have ih := joinWithSpace_length (q :: ps) (by simp)
    show (p ++ ' ' :: joinWithSpace (q :: ps)).length + 1 = _
    simp [sumLen] at ih ⊢
    omega

/-- C3 (amended): for every paragraph sequence whose concatenated text
length exceeds the 500-character budget, the summary ends with the ellipsis
marker and the characters drawn from the paragraphs total at most
500 + 3 = budget + ellipsis; however the full summary string additionally
contains one joining space per appended paragraph beyond the first (the
`" ".join` separators are not counted against the budget), so its total
length is only bounded by 503 + (number of appended parts - 1); the
truncated fragment is cut at the last space of its prefix only when that
prefix contains a space, so a space-free over-budget paragraph yields a
mid-word cut. -/
theorem extractive_budget_amended (paras : List Str) (h : 500 < sumLen paras) :
    str "..." <:+ joinWithSpace (extractiveLoopA paras 0) ∧
    sumLen (extractiveLoopA paras 0) ≤ 503 ∧
    (joinWithSpace (extractiveLoopA paras 0)).length + 1 ≤
      503 + (extractiveLoopA paras 0).length := by
  obtain ⟨front, last, heq, hsuf, hb⟩ :=
    extractiveLoopA_budget paras 0 (by omega) (by omega)
  rw [heq]
  have hlen := joinWithSpace_length (front ++ [last]) (by simp)
  refine ⟨hsuf.trans (join_last_suffix front last), by omega, by omega⟩

set_option maxRecDepth 10000 in
/-- Witness for C3 (amended) on the over-budget paragraphs `c3paras`. -/
theorem extractive_budget_amended_witness :
    500 < sumLen c3paras ∧
    (str "..." <:+ joinWithSpace (extractiveLoopA c3paras 0) ∧
     sumLen (extractiveLoopA c3paras 0) ≤ 503 ∧
     (joinWithSpace (extractiveLoopA c3paras 0)).length + 1 ≤
       503 + (extractiveLoopA c3paras 0).length) :=
  ⟨by decide, extractive_budget_amended c3paras (by decide)⟩


theorem dropWhile_head_false (p : Char → Bool) (l : Str) (c : Char)
    (hc : (l.dropWhile p).head? = some c) : p c = false := by
  have h := List.head?_dropWhile_not p l
  rw [hc] at h
  exact h

theorem dropWhile_eq_self_of_head (p : Char → Bool) (l : Str) (c : Char)
    (hc : l.head? = some c) (hp : p c = false) : l.dropWhile p = l := by
  cases l with
  | nil => rfl
  | cons a as =>
    have : a = c := by
      simp only [List.head?_cons, Option.some.injEq] at hc
      exact hc
    subst this
    simp [List.dropWhile_cons, hp]

theorem pyStrip_noEdge (s : Str) : NoEdge (pyStrip s) := by
  rw [pyStrip]
  constructor
  · intro c hc
    rw [List.head?_reverse] at hc
    set Z := ((s.dropWhile isWS).reverse).dropWhile isWS with hZ
    rcases hZne : Z with _ | ⟨z, zs⟩
    · rw [hZne] at hc; simp at hc
    · have hsuf : Z <:+ (s.dropWhile isWS).reverse := List.dropWhile_suffix isWS
      obtain ⟨w, hw⟩ := hsuf
      have hlast : Z.getLast? = ((s.dropWhile isWS).reverse).getLast? := by
        rw [← hw]
        exact (List.getLast?_append_of_ne_nil w (by rw [hZne]; simp)).symm
      rw [hZne] at hlast
      rw [hZne, hlast, List.getLast?_reverse] at hc
      exact dropWhile_head_false isWS s c hc
  · intro c hc
    rw [List.getLast?_reverse] at hc
    exact dropWhile_head_false isWS _ c hc

theorem flatten_noEdge (ps : List Str)
    (hps : ∀ x ∈ ps, x ≠ [] ∧ NoEdge x) : NoEdge ps.flatten := by
  induction ps with
  | nil => exact ⟨by intro c hc; simp at hc, by intro c hc; simp at hc⟩
  | cons p rest ih =>
    obtain ⟨hpne, hpe⟩ := hps p (by simp)
    have hrest : ∀ x ∈ rest, x ≠ [] ∧ NoEdge x := fun x hx => hps x (by simp [hx])
    rw [List.flatten_cons]
    constructor
    · intro c hc
      rw [List.head?_append_of_ne_nil p hpne] at hc
      exact hpe.1 c hc
    · intro c hc
      cases hr : rest with
      | nil =>
        rw [hr] at hc
        simp only [List.flatten_nil, List.append_nil] at hc
        exact hpe.2 c hc
      | cons q qs =>
        have hqne : rest.flatten ≠ [] := by
          rw [hr, List.flatten_cons]
          intro hcontra
          exact (hps q (by simp [hr])).1 (List.append_eq_nil.1 hcontra).1
        rw [List.getLast?_append_of_ne_nil p hqne] at hc
        exact ((ih hrest).2) c hc

theorem getTextStrip_noEdge (n : HNode) : NoEdge (getTextStrip n) := by
  rw [getTextStrip]
  apply flatten_noEdge
  intro x hx
  obtain ⟨hmem, hne⟩ := List.mem_filter.1 hx
  obtain ⟨y, hy, rfl⟩ := List.mem_map.1 hmem
  refine ⟨?_, pyStrip_noEdge y⟩
  simpa using hne


theorem fold_concatTrail (L : List (HNode × List HNode)) (acc : Str) :
    L.foldl (fun acc ea =>
        if keepElement ea then acc ++ getTextStrip ea.1 ++ [' '] else acc) acc =
      acc ++ concatTrail ((L.filter keepElement).map fun ea => getTextStrip ea.1) := by
  induction L generalizing acc with
  | nil => simp [concatTrail]
  | cons ea L ih =>
    cases hk : keepElement ea with
    | true =>
      rw [List.foldl_cons, if_pos hk, ih, List.filter_cons_of_pos hk, List.map_cons,
        concatTrail]
      simp [List.append_assoc]
    | false =>
      rw [List.foldl_cons, if_neg (by simp [hk]), ih, List.filter_cons_of_neg (by simp [hk])]

theorem dropWhile_append_left (p : Char → Bool) (a b : Str)
    (h : a.dropWhile p ≠ []) : (a ++ b).dropWhile p = a.dropWhile p ++ b := by
  induction a with
  | nil => exact absurd rfl h
  | cons c a ih =>
    cases hc : p c with
    | true =>
      rw [List.cons_append, List.dropWhile_cons_of_pos hc, List.dropWhile_cons_of_pos hc]
      exact ih (by rwa [List.dropWhile_cons_of_pos hc] at h)
    | false =>
      rw [List.cons_append, List.dropWhile_cons_of_neg (by simp [hc]),
        List.dropWhile_cons_of_neg (by simp [hc]), List.cons_append]

theorem head?_of_ne_nil_noEdge (t : Str) (hne : t ≠ []) (he : NoEdge t) :
    ∃ c, t.head? = some c ∧ isWS c = false := by
  cases t with
  | nil => exact absurd rfl hne
  | cons a as => exact ⟨a, rfl, he.1 a rfl⟩

theorem rightStrip_concatTrail (kept : List Str)
    (hk : ∀ t ∈ kept, t ≠ [] ∧ NoEdge t) (hne : kept ≠ []) :
    (concatTrail kept).reverse.dropWhile isWS = (joinWithSpace kept).reverse := by
  induction kept with
  | nil => exact absurd rfl hne
  | cons t ts ih =>
    obtain ⟨htne, hte⟩ := hk t (by simp)
    have hts : ∀ x ∈ ts, x ≠ [] ∧ NoEdge x := fun x hx => hk x (by simp [hx])
    have hrevt : t.reverse.dropWhile isWS = t.reverse := by
      obtain ⟨c, hc, hcw⟩ : ∃ c, t.reverse.head? = some c ∧ isWS c = false := by
        cases hr : t.getLast? with
        | none => exact absurd (List.getLast?_eq_none_iff.1 hr) htne
        | some c => exact ⟨c, by rw [List.head?_reverse, hr], hte.2 c hr⟩
      exact dropWhile_eq_self_of_head isWS t.reverse c hc hcw
    cases ts with
    | nil =>
      show (t ++ [' ']).reverse.dropWhile isWS = t.reverse
      rw [List.reverse_append]
      simp only [List.reverse_cons, List.reverse_nil, List.nil_append, List.singleton_append]
      rw [List.dropWhile_cons_of_pos (by simp [isWS])]
      exact hrevt
    | cons u us =>
      have hJ := ih (fun x hx => hk x (by simp at hx ⊢; tauto)) (by simp)
      have hJne : joinWithSpace (u :: us) ≠ [] :=
        joinWithSpace_ne_nil (u :: us) (by simp)
          (fun x hx => (hk x (by simp at hx ⊢; tauto)).1)
      show (t ++ ' ' :: concatTrail (u :: us)).reverse.dropWhile isWS = _
      rw [List.reverse_append]
      have hsplit : (' ' :: concatTrail (u :: us)).reverse =
          (concatTrail (u :: us)).reverse ++ [' '] := by
        rw [List.reverse_cons]
      rw [hsplit, List.append_assoc]
      rw [dropWhile_append_left isWS _ _ (by rw [hJ]; simpa using hJne)]
      rw [hJ]
      show _ = (t ++ ' ' :: joinWithSpace (u :: us)).reverse
      rw [List.reverse_append, List.reverse_cons, List.append_assoc]

theorem pyStrip_concatTrail (kept : List Str)
    (hk : ∀ t ∈ kept, t ≠ [] ∧ NoEdge t) :
    pyStrip (concatTrail kept) = joinWithSpace kept := by
  cases kept with
  | nil => rfl
  | cons t ts =>
    obtain ⟨htne, hte⟩ := hk t (by simp)
    rw [pyStrip]
    have hleft : (concatTrail (t :: ts)).dropWhile isWS = concatTrail (t :: ts) := by
      obtain ⟨c, hc, hcw⟩ := head?_of_ne_nil_noEdge t htne hte
      refine dropWhile_eq_self_of_head isWS _ c ?_ hcw
      show (t ++ ' ' :: concatTrail ts).head? = some c
      rw [List.head?_append_of_ne_nil t htne]
      exact hc
    rw [hleft, rightStrip_concatTrail (t :: ts) hk (by simp), List.reverse_reverse]

set_option maxRecDepth 4000 in
/-- C5 counterexample: in `containerLeak` (a matched region holding
`li > div.c-site-footer > p`), the paragraph `leakP` has a flagged ancestor
and is dropped by the structural filter, yet its text still reaches the blob
through the kept `leakLi`, whose `get_text(strip=True)` subsumes all
descendant text: the blob is `IntroShare on social media` and contains the
dropped paragraph's text, refuting the claimed absence guarantee. -/
theorem boilerplate_excluded_counterexample :
    findAllFrom isTextualElem [] containerLeak =
      [(leakLi, [containerLeak]), (leakP, [leakFooter, leakLi, containerLeak])] ∧
    isIrrelevantParent [leakFooter, leakLi, containerLeak] = true ∧
    keepElement (leakP, [leakFooter, leakLi, containerLeak]) = false ∧
    extractFullArticleText containerLeak [] = str "IntroShare on social media" ∧
    strContains (extractFullArticleText containerLeak []) (getTextStrip leakP) = true :=
  ⟨rfl, by decide, by decide, by decide, by decide⟩

/-- C5 (amended): for every content container (with its ancestor chain), the
extracted text blob is exactly the stripped texts of the kept textual
elements — those with no boilerplate-class ancestor, nonempty text, and no
boilerplate phrase — joined with a single separating space and trimmed.  A
dropped element contributes no entry of its own, but because a kept
element's `get_text(strip=True)` subsumes all of its descendants, a dropped
node's text can still appear inside the blob through a kept ancestor (the
counterexample above), so no blanket absence guarantee holds. -/
theorem boilerplate_excluded (container : HNode) (anc : List HNode) :
    extractFullArticleText container anc =
      joinWithSpace
        (((findAllFrom isTextualElem anc container).filter keepElement).map
          fun ea => getTextStrip ea.1) := by
  rw [extractFullArticleText, fold_concatTrail, List.nil_append]
  apply pyStrip_concatTrail
  intro t ht
  obtain ⟨ea, hea, rfl⟩ := List.mem_map.1 ht
  have hkeep := (List.mem_filter.1 hea).2
  refine ⟨?_, getTextStrip_noEdge ea.1⟩
  rw [keepElement] at hkeep
  simp only [Bool.and_eq_true, Bool.not_eq_true'] at hkeep
  simpa using hkeep.1.2


set_option maxRecDepth 4000 in
example :
    extractFullArticleText
      (HNode.elem (str "div") none [str "l-page-section_content"]
        [HNode.elem (str "p") none [] [HNode.text (str "Real prose about current threats.")],
         HNode.elem (str "div") none [str "c-site-footer"]
           [HNode.elem (str "p") none [] [HNode.text (str "Further reading and contact details.")]]])
      [] = str "Real prose about current threats." := by decide

end ScrapeThreats
